import Mathlib

/-!
# Neighborhood-based collaborative filtering: a shallow embedding

This file embeds the `uuCF` class of the repository (files
`Lab_Tasks/Recommendation_System/Bach_Paper_Testing.ipynb` and
`Lab_Tasks/Recommendation_System/Book_NeighborhoodBaseCF.ipynb`) in Lean and
proves the specified properties of `fit`, `predict_rating` and `recommend`.

Modelling conventions:
* ratings are exact rationals (`ℚ`) in place of floating point;
* `Y_data` (the rating triples, rows `[user_id, item_id, rating]`) is a
  `List Rating` in row order;
* the `scipy` COO→CSR construction is embedded operationally: the list of
  centered COO entries is folded into an association list in which an entry
  for an already-present key is added to the stored value (`tocsr` sums
  duplicate entries); absent entries read as `0`;
* `np.argsort(sim)[-k:]` followed by indexing `users[nns]` / `sim[nns]` is
  embedded by sorting the list of `(rater, similarity)` pairs with a stable
  ascending insertion sort and keeping the last `k` pairs.  Python `l[-k:]`
  returns the whole list when `k = 0`, which `lastK` reproduces;
* Python `sorted(key=score, reverse=True)` is embedded by a stable
  descending insertion sort on `(item, score)` pairs;
* the pluggable similarity function (`sim_func` argument, default
  `sklearn.cosine_similarity`) enters `predict_rating`/`recommend` only
  through the fitted matrix `S`, so those are parameterized by an arbitrary
  `S : Nat → Nat → ℚ`; the default cosine similarity itself is modelled
  separately over an ordered field together with an abstract square-root
  function (instantiated with `Real.sqrt` in the witnesses).
-/

/-- One row `[user_id, item_id, rating]` of `Y_data`. -/
structure Rating where
  subject : Nat
  target : Nat
  value : ℚ
deriving DecidableEq, Repr

/-- Embeds `self.n_users = int(np.max(self.Y_data[:, 0])) + 1`. -/
def nUsers (Y : List Rating) : Nat :=
  (Y.map Rating.subject).foldr max 0 + 1

/-- Embeds `self.n_items = int(np.max(self.Y_data[:, 1])) + 1`. -/
def nItems (Y : List Rating) : Nat :=
  (Y.map Rating.target).foldr max 0 + 1

/-- The rating rows made by subject (user) `s`:
`ids = np.where(users == s)[0]` materialised as the rows themselves. -/
def subjRows (Y : List Rating) (s : Nat) : List Rating :=
  Y.filter (fun r => r.subject == s)

/-- Embeds `self.mu[s]`: the mean rating of user `s`, `0` for a user with no
ratings (`np.mean(ratings) if ids.size > 0 else 0`; the other variant
computes `bincount-weighted sum / bincount` and maps the resulting `0/0`
NaN to `0` with `np.nan_to_num`, which agrees with this value). -/
def mu (Y : List Rating) (s : Nat) : ℚ :=
  if (subjRows Y s).length = 0 then 0
  else ((subjRows Y s).map Rating.value).sum / ((subjRows Y s).length : ℚ)

/-- The centered COO entries
`coo_matrix((Ybar[:, 2], (Ybar[:, 1], Ybar[:, 0])))`: key `(item, user)`,
value `rating - mu[user]`. -/
def cooEntries (Y : List Rating) : List ((Nat × Nat) × ℚ) :=
  Y.map (fun r => ((r.target, r.subject), r.value - mu Y r.subject))

/-- Add value `v` at `key` into an association list, summing with the
existing entry when the key is present (the `tocsr()` coalescing rule). -/
def insertAdd : List ((Nat × Nat) × ℚ) → (Nat × Nat) → ℚ → List ((Nat × Nat) × ℚ)
  | [], key, v => [(key, v)]
  | e :: rest, key, v =>
    if e.1 = key then (e.1, e.2 + v) :: rest else e :: insertAdd rest key v

/-- Coalesce a COO entry list into a duplicate-summed association list,
as `coo_matrix(...).tocsr()` does. -/
def coalesce (l : List ((Nat × Nat) × ℚ)) : List ((Nat × Nat) × ℚ) :=
  l.foldl (fun acc e => insertAdd acc e.1 e.2) []

/-- Association-list lookup by key (first match wins), the read operation
of the coalesced sparse matrix. -/
def alookup : List ((Nat × Nat) × ℚ) → (Nat × Nat) → Option ℚ
  | [], _ => none
  | e :: rest, key => if e.1 = key then some e.2 else alookup rest key

/-- The stored entry of the CSR matrix `self.Ybar` at `(item t, user s)`,
`none` when the position holds no entry. -/
def YbarEntry (Y : List Rating) (t s : Nat) : Option ℚ :=
  alookup (coalesce (cooEntries Y)) (t, s)

/-- Embeds the read `self.Ybar[t, s]`: the stored entry, `0` where the
sparse matrix holds none. -/
def Ybar (Y : List Rating) (t s : Nat) : ℚ :=
  (YbarEntry Y t s).getD 0

/-- Embeds `users_rated_item`: the users who rated item `t`, in row order
(`np.where(self.Y_data[:, 1] == t)` then column 0). -/
def raters (Y : List Rating) (t : Nat) : List Nat :=
  (Y.filter (fun r => r.target == t)).map Rating.subject

/-- Ascending comparison of `(id, score)` pairs by score. -/
def scoreLE (a b : Nat × ℚ) : Prop := a.2 ≤ b.2

/-- Descending comparison of `(id, score)` pairs by score. -/
def scoreGE (a b : Nat × ℚ) : Prop := b.2 ≤ a.2

instance : DecidableRel scoreLE :=
  fun a b => inferInstanceAs (Decidable (a.2 ≤ b.2))

instance : DecidableRel scoreGE :=
  fun a b => inferInstanceAs (Decidable (b.2 ≤ a.2))

instance : IsTotal (Nat × ℚ) scoreLE := ⟨fun a b => le_total a.2 b.2⟩

instance : IsTrans (Nat × ℚ) scoreLE := ⟨fun _ _ _ => le_trans⟩

instance : IsTotal (Nat × ℚ) scoreGE := ⟨fun a b => le_total b.2 a.2⟩

instance : IsTrans (Nat × ℚ) scoreGE := ⟨fun _ _ _ h h2 => le_trans h2 h⟩

/-- Python `l[-k:]`: the last `k` elements, the whole list when `k = 0`
or when `k ≥ l.length`. -/
def lastK (k : Nat) (l : List (Nat × ℚ)) : List (Nat × ℚ) :=
  if k = 0 then l else l.drop (l.length - k)

/-- The unsorted `(rater, similarity)` pairs for the raters of item `t`
(`sim = self.S[s, users_rated_item]` paired with `users_rated_item`). -/
def raterSims (Y : List Rating) (S : Nat → Nat → ℚ) (s t : Nat) :
    List (Nat × ℚ) :=
  (raters Y t).map (fun u => (u, S s u))

/-- The `(rater, similarity)` pairs sorted by ascending similarity
(`np.argsort(sim)` with a stable tie order, applied to both
`users_rated_item` and `sim`). -/
def sortedRaterSims (Y : List Rating) (S : Nat → Nat → ℚ) (s t : Nat) :
    List (Nat × ℚ) :=
  List.insertionSort scoreLE (raterSims Y S s t)

/-- The `(neighbor, similarity)` pairs kept by `np.argsort(sim)[-self.k:]`:
the (up to) `k` raters of highest similarity. -/
def chosenPairs (Y : List Rating) (S : Nat → Nat → ℚ) (k s t : Nat) :
    List (Nat × ℚ) :=
  lastK k (sortedRaterSims Y S s t)

/-- The selected neighbor ids (`users_rated_item[nearest_neighbors]`). -/
def neighbors (Y : List Rating) (S : Nat → Nat → ℚ) (k s t : Nat) : List Nat :=
  (chosenPairs Y S k s t).map Prod.fst

/-- Embeds `eps = 1e-8`. -/
def eps : ℚ := 1 / 100000000

/-- Embeds `predict_rating(s, t)` / `pred(s, t)`:
`(ratings_by_neighbors * nearest_sim_scores).sum()
 / (np.abs(nearest_sim_scores).sum() + eps) + self.mu[s]`. -/
def predict (Y : List Rating) (S : Nat → Nat → ℚ) (k s t : Nat) : ℚ :=
  ((chosenPairs Y S k s t).map (fun p => Ybar Y t p.1 * p.2)).sum /
      (((chosenPairs Y S k s t).map (fun p => |p.2|)).sum + eps) +
    mu Y s

/-- Embeds `rated_items = set(self.Y_data[self.Y_data[:, 0] == u, 1])`. -/
def ratedTargets (Y : List Rating) (u : Nat) : List Nat :=
  (Y.filter (fun r => r.subject == u)).map Rating.target

/-- Embeds `unrated_items = list(set(range(self.n_items)) - rated_items)`. -/
def candidates (Y : List Rating) (u : Nat) : List Nat :=
  (List.range (nItems Y)).filter (fun i => !(ratedTargets Y u).contains i)

/-- Embeds `predictions = [(i, self.predict_rating(u, i)) for i in unrated_items]`. -/
def scoredCandidates (Y : List Rating) (S : Nat → Nat → ℚ) (k u : Nat) :
    List (Nat × ℚ) :=
  (candidates Y u).map (fun i => (i, predict Y S k u i))

/-- Embeds `recommend(u, topK)`: sort the scored candidates by descending predicted
rating (stable), keep the first `topK`, return the item ids. -/
def recommend (Y : List Rating) (S : Nat → Nat → ℚ) (k u topK : Nat) :
    List Nat :=
  ((List.insertionSort scoreGE (scoredCandidates Y S k u)).take topK).map
    Prod.fst

/-- The literal scenario of the spec: subjects `{0,1,2}` with ratings
`(0,0,5), (0,1,3), (1,0,4), (1,1,4), (2,0,1)`. -/
def demoY : List Rating := [⟨0, 0, 5⟩, ⟨0, 1, 3⟩, ⟨1, 0, 4⟩, ⟨1, 1, 4⟩, ⟨2, 0, 1⟩]

/-- A concrete stand-in similarity matrix used when instantiating theorems
whose statement holds for an arbitrary fitted similarity matrix. -/
def demoS : Nat → Nat → ℚ :=
  fun i j => if i = j then 1 else (1 : ℚ) / 2

/-- The values stored in an entry list under a given key, in order. -/
def keyVals (l : List ((Nat × Nat) × ℚ)) (key : Nat × Nat) : List ℚ :=
  (l.filter (fun e => e.1 = key)).map Prod.snd

/-- The rating rows that address the matrix cell `(target t, subject s)`
(more than one row only when the input holds duplicate pairs). -/
def dups (Y : List Rating) (t s : Nat) : List Rating :=
  Y.filter (fun r => r.target = t ∧ r.subject = s)

/-- A duplicated input row: subject 0 rates target 0 twice with value 1. -/
def Ydup : List Rating := [⟨0, 0, 1⟩, ⟨0, 1, 3⟩, ⟨0, 0, 1⟩]

/-- An input in which subject 1 (within range: `subjectCount = 3`) has no
ratings. -/
def Ygap : List Rating := [⟨0, 0, 5⟩, ⟨2, 0, 1⟩]

/-- An input in which target 1 (within range: `targetCount = 3`) has no
raters at all. -/
def YnoRater : List Rating := [⟨0, 0, 5⟩, ⟨0, 2, 3⟩]

/-- For `k > 0`, the sorted rater/similarity pairs NOT selected by
`np.argsort(sim)[-k:]` (the low-similarity prefix of the ascending order). -/
def passedOver (Y : List Rating) (S : Nat → Nat → ℚ) (k s t : Nat) :
    List (Nat × ℚ) :=
  (sortedRaterSims Y S s t).take ((sortedRaterSims Y S s t).length - k)

/-- The Gram entry `⟨column i, column j⟩` of the centered matrix: the dot
product of two subjects' centered-rating column vectors, the quantity that
`cosine_similarity(self.Ybar.T, self.Ybar.T)` normalizes. -/
def gram (Y : List Rating) (i j : Nat) : ℚ :=
  ((List.range (nItems Y)).map (fun t => Ybar Y t i * Ybar Y t j)).sum

/-- The divisor `sklearn.preprocessing.normalize` applies to row `i`: the
Euclidean norm of the row, with zero norms replaced by 1 before dividing
(`norms[norms == 0.0] = 1.0`).  The square root is an abstract `f` so that
the development stays inside an arbitrary linear ordered field; theorems
assume of `f` only what `Real.sqrt` satisfies on positive rationals, and
the witnesses instantiate `f := Real.sqrt`. -/
def normFactor (α : Type) [LinearOrderedField α] (f : ℚ → α)
    (Y : List Rating) (i : Nat) : α :=
  if gram Y i i = 0 then 1 else f (gram Y i i)

/-- Embeds `self.S[i, j]` for the default `sim_func = cosine_similarity`:
`⟨x_i, x_j⟩ / (‖x_i‖ * ‖x_j‖)` with the zero-norm guard above. -/
def cosineSim (α : Type) [LinearOrderedField α] (f : ℚ → α)
    (Y : List Rating) (i j : Nat) : α :=
  (gram Y i j : α) / (normFactor α f Y i * normFactor α f Y j)

theorem alookup_insertAdd (acc : List ((Nat × Nat) × ℚ)) (key : Nat × Nat)
    (v : ℚ) (key2 : Nat × Nat) :
    alookup (insertAdd acc key v) key2 =
      if key2 = key then some ((alookup acc key2).getD 0 + v)
      else alookup acc key2 := by
  induction acc with
  | nil =>
    by_cases h : key2 = key
    · subst h; simp [insertAdd, alookup]
    · have h2 : ¬key = key2 := fun hh => h hh.symm
      simp [insertAdd, alookup, h, h2]
  | cons e rest ih =>
    by_cases he : e.1 = key
    · subst he
      rw [insertAdd, if_pos rfl]
      by_cases h2 : key2 = e.1
      · subst h2
        simp [alookup]
      · have h3 : ¬e.1 = key2 := fun hh => h2 hh.symm
        simp [alookup, h3, h2]
    · rw [insertAdd, if_neg he]
      by_cases h4 : e.1 = key2
      · have h5 : ¬key2 = key := fun hh => he (h4.trans hh)
        simp [alookup, h4, h5]
      · simp [alookup, h4, ih]

theorem alookup_foldl_insertAdd (l : List ((Nat × Nat) × ℚ)) :
    ∀ (acc : List ((Nat × Nat) × ℚ)) (key : Nat × Nat),
      alookup (l.foldl (fun a e => insertAdd a e.1 e.2) acc) key =
        if keyVals l key = [] then alookup acc key
        else some ((alookup acc key).getD 0 + (keyVals l key).sum) := by
  induction l with
  | nil => intro acc key; simp [keyVals]
  | cons e rest ih =>
    intro acc key
    rw [List.foldl_cons, ih]
    by_cases he : e.1 = key
    · have he2 : key = e.1 := he.symm
      have hkv : keyVals (e :: rest) key = e.2 :: keyVals rest key := by
        simp [keyVals, List.filter_cons, he]
      rw [hkv]
      by_cases hrest : keyVals rest key = []
      · simp [hrest, alookup_insertAdd, he2, add_assoc]
        intro h
        simp [h]
      · simp [hrest, alookup_insertAdd, he2, add_assoc]
        intro h
        simp [h]
    · have hkv : keyVals (e :: rest) key = keyVals rest key := by
        simp [keyVals, List.filter_cons, he]
      have hne : ¬key = e.1 := fun hh => he hh.symm
      rw [hkv, alookup_insertAdd, if_neg hne]

theorem YbarEntry_eq (Y : List Rating) (t s : Nat) :
    YbarEntry Y t s =
      if keyVals (cooEntries Y) (t, s) = [] then none
      else some ((keyVals (cooEntries Y) (t, s)).sum) := by
  rw [YbarEntry, coalesce, alookup_foldl_insertAdd]
  by_cases h : keyVals (cooEntries Y) (t, s) = [] <;> simp [h, alookup]

theorem keyVals_cooEntries (Y : List Rating) (t s : Nat) :
    keyVals (cooEntries Y) (t, s) =
      (dups Y t s).map (fun r => r.value - mu Y r.subject) := by
  rw [keyVals, cooEntries, List.filter_map, List.map_map, dups]
  congr 1
  apply List.filter_congr
  intro r _
  simp [Function.comp, Prod.ext_iff, and_comm]

/-- The matrix entry at `(t, s)` is the sum of the centered values of all
rating rows addressed to `(s, t)` (the `tocsr` duplicate-summing rule);
it is `0` when no row addresses the cell. -/
theorem Ybar_eq_dupsSum (Y : List Rating) (t s : Nat) :
    Ybar Y t s = ((dups Y t s).map (fun r => r.value - mu Y r.subject)).sum := by
  rw [Ybar, YbarEntry_eq, keyVals_cooEntries]
  by_cases h : (dups Y t s).map (fun r => r.value - mu Y r.subject) = [] <;>
    simp [h]

/-- C10: with duplicate `(subject, target)` pairs in the input, the fitted
matrix entry at `(target, subject)` is the SUM of the duplicates' centered
values (`coo_matrix(...).tocsr()` sums duplicate entries), not the
last-written value. -/
theorem duplicateRatingsSummed (Y : List Rating) (t s : Nat) :
    Ybar Y t s = ((dups Y t s).map (fun r => r.value - mu Y s)).sum := by
  rw [Ybar_eq_dupsSum]
  congr 1
  apply List.map_congr_left
  intro r hr
  have hs : r.subject = s := by
    rw [dups] at hr
    have h2 := (List.mem_filter.mp hr).2
    rw [decide_eq_true_eq] at h2
    exact h2.2
  rw [hs]

/-- C2 counterexample: with a duplicate `(subject, target)` pair the
normalization identity fails at the rating `(0, 0, 1)`: the entry holds the
sum of both centered duplicates, so `centeredMatrix[0,0] + subjectMean[0]`
is `1/3`, not `1`. -/
theorem normalizationIdentityCex :
    (⟨0, 0, 1⟩ : Rating) ∈ Ydup ∧ ¬(Ybar Ydup 0 0 + mu Ydup 0 = 1) := by
  constructor
  · simp [Ydup]
  · norm_num [Ybar, YbarEntry, coalesce, cooEntries, mu, subjRows,
      List.filter_cons, insertAdd, alookup, Prod.mk.injEq,
      -Prod.mk_zero_zero, Ydup]

theorem dups_eq_single :
    ∀ Y : List Rating, (Y.map (fun r => (r.subject, r.target))).Nodup →
      ∀ r : Rating, r ∈ Y → dups Y r.target r.subject = [r] := by
  intro Y
  induction Y with
  | nil => intro _ r hr; cases hr
  | cons a rest ih =>
    intro hU r hr
    rw [List.map_cons, List.nodup_cons] at hU
    rcases List.mem_cons.mp hr with rfl | hmem
    · have hrest : dups rest r.target r.subject = [] := by
        rw [dups, List.filter_eq_nil_iff]
        intro x hx hpx
        rw [decide_eq_true_eq] at hpx
        exact absurd (List.mem_map.mpr ⟨x, hx, by rw [hpx.1, hpx.2]⟩) hU.1
      rw [dups] at hrest ⊢
      rw [List.filter_cons, if_pos (by simp)]
      rw [hrest]
    · have hna : ¬(a.target = r.target ∧ a.subject = r.subject) := by
        intro h
        exact absurd (List.mem_map.mpr ⟨r, hmem, by rw [h.1, h.2]⟩) hU.1
      rw [dups, List.filter_cons, if_neg (by simpa using hna)]
      exact ih hU.2 r hmem

/-- C2 (amended): provided the input holds no duplicate `(subject, target)`
pair, every input rating satisfies
`centeredMatrix[t, s] + subjectMean[s] = v` exactly. -/
theorem normalizationIdentity (Y : List Rating)
    (hU : (Y.map (fun r => (r.subject, r.target))).Nodup) (r : Rating)
    (hr : r ∈ Y) :
    Ybar Y r.target r.subject + mu Y r.subject = r.value := by
  rw [Ybar_eq_dupsSum, dups_eq_single Y hU r hr]
  simp

/-- C2 witness: the amended identity applied to the rating `(0, 1, 3)` of the
literal scenario, whose pairs are duplicate-free. -/
theorem normalizationIdentityWitness :
    (demoY.map (fun r => (r.subject, r.target))).Nodup ∧
      Ybar demoY 1 0 + mu demoY 0 = 3 :=
  ⟨by decide, normalizationIdentity demoY (by decide) ⟨0, 1, 3⟩ (by decide)⟩

/-- C5: a subject with no ratings in the input has `subjectMean = 0` (an
exact, well-defined value) and the centered matrix stores no entry in the
subject's column. -/
theorem zeroRatingSubject (Y : List Rating) (s : Nat)
    (h : ∀ r ∈ Y, r.subject ≠ s) :
    mu Y s = 0 ∧ ∀ t, YbarEntry Y t s = none := by
  have hsub : subjRows Y s = [] := by
    rw [subjRows, List.filter_eq_nil_iff]
    intro r hr
    simpa using h r hr
  refine ⟨by rw [mu, hsub]; simp, ?_⟩
  intro t
  rw [YbarEntry_eq, keyVals_cooEntries]
  have hd : dups Y t s = [] := by
    rw [dups, List.filter_eq_nil_iff]
    intro r hr hpx
    rw [decide_eq_true_eq] at hpx
    exact h r hr hpx.2
  simp [hd]

/-- C5 witness: subject 1 of `Ygap` has no ratings; its mean is 0 and its
column stores no entries. -/
theorem zeroRatingSubjectWitness :
    (∀ r ∈ Ygap, r.subject ≠ 1) ∧ nUsers Ygap = 3 ∧
      (mu Ygap 1 = 0 ∧ ∀ t, YbarEntry Ygap t 1 = none) :=
  ⟨by decide, by decide, zeroRatingSubject Ygap 1 (by decide)⟩

/-- C1 counterexample: target 1 of `YnoRater` has an empty rater set, yet
`predict_rating` signals nothing: it runs through (`argsort` of an empty
array, an empty weighted sum, `0 / (0 + 1e-8) = 0`) and silently returns
the numeric value `subjectMean[0] = 4`. -/
theorem predictNoRatersCex :
    raters YnoRater 1 = [] ∧ predict YnoRater demoS 40 0 1 = mu YnoRater 0 ∧
      mu YnoRater 0 = 4 := by
  refine ⟨by decide, ?_, ?_⟩
  · norm_num [predict, chosenPairs, lastK, sortedRaterSims, raterSims,
      raters, YnoRater, List.filter_cons, List.insertionSort, eps]
  · norm_num [mu, subjRows, YnoRater, List.filter_cons]

/-- C1 (amended): for a target with an empty rater set, `predict` raises no
error condition; it returns exactly `subjectMean[s]` (the weighted sum is
empty, so the prediction term is `0 / (0 + 1e-8) = 0`). -/
theorem predictNoRatersReturnsMean (Y : List Rating) (S : Nat → Nat → ℚ)
    (k s t : Nat) (h : raters Y t = []) : predict Y S k s t = mu Y s := by
  have hchosen : chosenPairs Y S k s t = [] := by
    rw [chosenPairs, sortedRaterSims, raterSims, h]
    simp [lastK]
  rw [predict, hchosen]
  simp

/-- C1 witness: the amended statement evaluated on `YnoRater`, target 1. -/
theorem predictNoRatersReturnsMeanWitness :
    raters YnoRater 1 = [] ∧
      predict YnoRater demoS 40 0 1 = mu YnoRater 0 :=
  ⟨by decide, predictNoRatersReturnsMean YnoRater demoS 40 0 1 (by decide)⟩

theorem chosenPairs_snd (Y : List Rating) (S : Nat → Nat → ℚ) (k s t : Nat)
    (p : Nat × ℚ) (hp : p ∈ chosenPairs Y S k s t) : p.2 = S s p.1 := by
  have h1 : p ∈ sortedRaterSims Y S s t := by
    rw [chosenPairs, lastK] at hp
    split at hp
    · exact hp
    · exact List.mem_of_mem_drop hp
  have h2 : p ∈ raterSims Y S s t :=
    ((List.perm_insertionSort scoreLE (raterSims Y S s t)).mem_iff).mp h1
  rw [raterSims] at h2
  rcases List.mem_map.mp h2 with ⟨u, _, rfl⟩
  rfl

/-- C3: with the selected neighbor list `N`, `predict` returns exactly
`(Σ n in N, centeredMatrix[t, n] * sim[s, n])
 / ((Σ n in N, |sim[s, n]|) + 1e-8) + subjectMean[s]` — no clamping of the
result to a rating range and no separate divide-by-zero branch. -/
theorem predictFormula (Y : List Rating) (S : Nat → Nat → ℚ) (k s t : Nat)
    (_h : neighbors Y S k s t ≠ []) :
    predict Y S k s t =
      ((neighbors Y S k s t).map (fun n => Ybar Y t n * S s n)).sum /
          (((neighbors Y S k s t).map (fun n => |S s n|)).sum + eps) +
        mu Y s := by
  rw [predict, neighbors, List.map_map, List.map_map]
  have hnum :
      (chosenPairs Y S k s t).map (fun p => Ybar Y t p.1 * p.2) =
        (chosenPairs Y S k s t).map
          ((fun n => Ybar Y t n * S s n) ∘ Prod.fst) := by
    apply List.map_congr_left
    intro p hp
    have := chosenPairs_snd Y S k s t p hp
    simp [Function.comp, this]
  have hden :
      (chosenPairs Y S k s t).map (fun p => |p.2|) =
        (chosenPairs Y S k s t).map ((fun n => |S s n|) ∘ Prod.fst) := by
    apply List.map_congr_left
    intro p hp
    have := chosenPairs_snd Y S k s t p hp
    simp [Function.comp, this]
  rw [hnum, hden]

/-- C3 witness: the formula instantiated at the literal scenario, subject 2
and target 1, whose neighbor list is non-empty. -/
theorem predictFormulaWitness :
    neighbors demoY demoS 40 2 1 ≠ [] ∧
      predict demoY demoS 40 2 1 =
        ((neighbors demoY demoS 40 2 1).map
            (fun n => Ybar demoY 1 n * demoS 2 n)).sum /
            (((neighbors demoY demoS 40 2 1).map
                (fun n => |demoS 2 n|)).sum + eps) +
          mu demoY 2 := by
  have hne : neighbors demoY demoS 40 2 1 ≠ [] := by
    norm_num [neighbors, chosenPairs, lastK, sortedRaterSims, raterSims,
      raters, demoY, demoS, List.filter_cons, List.insertionSort,
      List.orderedInsert, scoreLE]
    decide
  exact ⟨hne, predictFormula demoY demoS 40 2 1 hne⟩

theorem map_fst_raterSims (Y : List Rating) (S : Nat → Nat → ℚ) (s t : Nat) :
    (raterSims Y S s t).map Prod.fst = raters Y t := by
  rw [raterSims, List.map_map]
  have hid : (Prod.fst ∘ fun u : Nat => (u, S s u)) = id := rfl
  rw [hid, List.map_id]

/-- C4: with `k > 0`, the neighbor list has `min k |R(t)|` members; when
`|R(t)| < k` it is the whole rater list (reordered), without any error; the
selected and passed-over pairs partition the raters; and every selected
similarity is at least every passed-over similarity. -/
theorem neighborSelection (Y : List Rating) (S : Nat → Nat → ℚ) (k s t : Nat)
    (hk : 0 < k) :
    (neighbors Y S k s t).length = min k (raters Y t).length ∧
    ((raters Y t).length < k → (neighbors Y S k s t).Perm (raters Y t)) ∧
    ((passedOver Y S k s t).map Prod.fst ++ neighbors Y S k s t).Perm
      (raters Y t) ∧
    (∀ p ∈ chosenPairs Y S k s t, ∀ q ∈ passedOver Y S k s t, q.2 ≤ p.2) := by
  have hk0 : ¬k = 0 := Nat.pos_iff_ne_zero.mp hk
  have hchosen : chosenPairs Y S k s t =
      (sortedRaterSims Y S s t).drop ((sortedRaterSims Y S s t).length - k) := by
    rw [chosenPairs, lastK, if_neg hk0]
  have hsortlen : (sortedRaterSims Y S s t).length = (raters Y t).length := by
    rw [sortedRaterSims, List.length_insertionSort, raterSims, List.length_map]
  have hsplit : passedOver Y S k s t ++ chosenPairs Y S k s t =
      sortedRaterSims Y S s t := by
    rw [hchosen, passedOver, List.take_append_drop]
  have hpermfst :
      ((sortedRaterSims Y S s t).map Prod.fst).Perm (raters Y t) := by
    rw [← map_fst_raterSims Y S s t]
    exact (List.perm_insertionSort scoreLE (raterSims Y S s t)).map Prod.fst
  refine ⟨?_, ?_, ?_, ?_⟩
  · rw [neighbors, List.length_map, hchosen, List.length_drop, hsortlen]
    omega
  · intro hlt
    have hz : (sortedRaterSims Y S s t).length - k = 0 := by omega
    rw [neighbors, hchosen, hz, List.drop_zero]
    exact hpermfst
  · rw [neighbors, ← List.map_append, hsplit]
    exact hpermfst
  · have hpw :
        (passedOver Y S k s t ++ chosenPairs Y S k s t).Pairwise scoreLE := by
      rw [hsplit]
      exact List.sorted_insertionSort scoreLE (raterSims Y S s t)
    have h3 := (List.pairwise_append.mp hpw).2.2
    intro p hp q hq
    exact h3 q hq p hp

/-- C4 witness: the selection properties at the literal scenario with the
default `k = 40` (target 1 has only 2 raters, both used). -/
theorem neighborSelectionWitness :
    0 < 40 ∧
      ((neighbors demoY demoS 40 2 1).length =
          min 40 (raters demoY 1).length ∧
        ((raters demoY 1).length < 40 →
          (neighbors demoY demoS 40 2 1).Perm (raters demoY 1)) ∧
        ((passedOver demoY demoS 40 2 1).map Prod.fst ++
            neighbors demoY demoS 40 2 1).Perm (raters demoY 1) ∧
        (∀ p ∈ chosenPairs demoY demoS 40 2 1,
          ∀ q ∈ passedOver demoY demoS 40 2 1, q.2 ≤ p.2)) :=
  ⟨by decide, neighborSelection demoY demoS 40 2 1 (by decide)⟩

/-- C6: every item id returned by `recommend` lies outside the caller's
already-rated item set (candidates are `range(n_items)` minus rated). -/
theorem recommendExcludesRated (Y : List Rating) (S : Nat → Nat → ℚ)
    (k u topK i : Nat) (hi : i ∈ recommend Y S k u topK) :
    i ∉ ratedTargets Y u := by
  rw [recommend] at hi
  rcases List.mem_map.mp hi with ⟨p, hp, rfl⟩
  have hp2 : p ∈ List.insertionSort scoreGE (scoredCandidates Y S k u) :=
    List.mem_of_mem_take hp
  have hp3 : p ∈ scoredCandidates Y S k u :=
    (List.perm_insertionSort scoreGE (scoredCandidates Y S k u)).mem_iff.mp hp2
  rw [scoredCandidates] at hp3
  rcases List.mem_map.mp hp3 with ⟨c, hc, rfl⟩
  rw [candidates] at hc
  have h2 := (List.mem_filter.mp hc).2
  simpa using h2

/-- Evaluation of `recommend` on the literal scenario: subject 2 has rated
only item 0, and item 1 is the single candidate. -/
theorem demoRecommendEval : recommend demoY demoS 40 2 10 = [1] := by
  norm_num [recommend, scoredCandidates, candidates, predict, chosenPairs,
    lastK, sortedRaterSims, raterSims, raters, demoY, demoS, nItems,
    List.filter_cons, List.range_succ, ratedTargets, List.insertionSort,
    List.orderedInsert, scoreLE, scoreGE, Ybar, YbarEntry, coalesce,
    cooEntries, mu, subjRows, insertAdd, alookup, eps, Prod.mk.injEq,
    -Prod.mk_zero_zero]

/-- C6 witness: item 1 is recommended to subject 2 and is not among the
items subject 2 has rated. -/
theorem recommendExcludesRatedWitness :
    1 ∈ recommend demoY demoS 40 2 10 ∧ 1 ∉ ratedTargets demoY 2 := by
  have h1 : (1 : Nat) ∈ recommend demoY demoS 40 2 10 := by
    rw [demoRecommendEval]
    exact List.mem_singleton.mpr rfl
  exact ⟨h1, recommendExcludesRated demoY demoS 40 2 10 1 h1⟩

/-- C7: `recommend(u, topK)` returns `min topK |candidates|` item ids,
ordered by non-increasing predicted score, and every returned item's score
is at least the score of every candidate left out. -/
theorem recommendTopKOrdered (Y : List Rating) (S : Nat → Nat → ℚ)
    (k u topK : Nat) :
    (recommend Y S k u topK).length = min topK (candidates Y u).length ∧
    List.Pairwise (fun a b => predict Y S k u b ≤ predict Y S k u a)
      (recommend Y S k u topK) ∧
    ∀ a ∈ recommend Y S k u topK, ∀ c ∈ candidates Y u,
      c ∉ recommend Y S k u topK → predict Y S k u c ≤ predict Y S k u a := by
  have hsnd : ∀ p ∈ List.insertionSort scoreGE (scoredCandidates Y S k u),
      p.2 = predict Y S k u p.1 := by
    intro p hp
    have hp2 : p ∈ scoredCandidates Y S k u :=
      (List.perm_insertionSort scoreGE (scoredCandidates Y S k u)).mem_iff.mp hp
    rw [scoredCandidates] at hp2
    rcases List.mem_map.mp hp2 with ⟨c, _, rfl⟩
    rfl
  have hpw :
      (List.insertionSort scoreGE (scoredCandidates Y S k u)).Pairwise
        scoreGE :=
    List.sorted_insertionSort scoreGE (scoredCandidates Y S k u)
  have hlen :
      (List.insertionSort scoreGE (scoredCandidates Y S k u)).length =
        (candidates Y u).length := by
    rw [List.length_insertionSort, scoredCandidates, List.length_map]
  refine ⟨?_, ?_, ?_⟩
  · rw [recommend, List.length_map, List.length_take, hlen]
  · rw [recommend, List.pairwise_map]
    have hpwTake :=
      List.Pairwise.sublist
        (List.take_sublist topK
          (List.insertionSort scoreGE (scoredCandidates Y S k u))) hpw
    apply List.Pairwise.imp_of_mem ?_ hpwTake
    intro a b ha hb hab
    have ha2 := hsnd a (List.mem_of_mem_take ha)
    have hb2 := hsnd b (List.mem_of_mem_take hb)
    rw [← ha2, ← hb2]
    exact hab
  · intro a ha c hc hnc
    rw [recommend] at ha hnc
    rcases List.mem_map.mp ha with ⟨p, hpTake, rfl⟩
    have hcpair : (c, predict Y S k u c) ∈ scoredCandidates Y S k u := by
      rw [scoredCandidates]
      exact List.mem_map.mpr ⟨c, hc, rfl⟩
    have hcsort : (c, predict Y S k u c) ∈
        List.insertionSort scoreGE (scoredCandidates Y S k u) :=
      (List.perm_insertionSort scoreGE
        (scoredCandidates Y S k u)).mem_iff.mpr hcpair
    rw [← List.take_append_drop topK
        (List.insertionSort scoreGE (scoredCandidates Y S k u))] at hcsort
    rcases List.mem_append.mp hcsort with hin | hin
    · exact absurd (List.mem_map.mpr ⟨_, hin, rfl⟩) hnc
    · have hpw2 := hpw
      rw [← List.take_append_drop topK
          (List.insertionSort scoreGE (scoredCandidates Y S k u))] at hpw2
      have h3 := (List.pairwise_append.mp hpw2).2.2
      have h4 := h3 p hpTake _ hin
      have hp2 := hsnd p (List.mem_of_mem_take hpTake)
      rw [← hp2]
      exact h4

/-- C7 witness: the top-K properties instantiated at the literal scenario
(subject 2, `topK = 10`). -/
theorem recommendTopKOrderedWitness :
    (recommend demoY demoS 40 2 10).length =
        min 10 (candidates demoY 2).length ∧
      List.Pairwise (fun a b => predict demoY demoS 40 2 b ≤
          predict demoY demoS 40 2 a) (recommend demoY demoS 40 2 10) ∧
      ∀ a ∈ recommend demoY demoS 40 2 10, ∀ c ∈ candidates demoY 2,
        c ∉ recommend demoY demoS 40 2 10 →
          predict demoY demoS 40 2 c ≤ predict demoY demoS 40 2 a :=
  recommendTopKOrdered demoY demoS 40 2 10

theorem gram_comm (Y : List Rating) (i j : Nat) : gram Y i j = gram Y j i := by
  rw [gram, gram]
  congr 1
  apply List.map_congr_left
  intro t _
  ring

theorem sumSq_nonneg (g : Nat → ℚ) :
    ∀ l : List Nat, 0 ≤ ((l.map (fun t => g t * g t)).sum)
  | [] => by simp
  | a :: l => by
    rw [List.map_cons, List.sum_cons]
    exact add_nonneg (mul_self_nonneg (g a)) (sumSq_nonneg g l)

theorem sumSq_eq_zero_iff (g : Nat → ℚ) :
    ∀ l : List Nat,
      ((l.map (fun t => g t * g t)).sum = 0 ↔ ∀ t ∈ l, g t = 0)
  | [] => by simp
  | a :: l => by
    rw [List.map_cons, List.sum_cons]
    constructor
    · intro h
      have hz := (add_eq_zero_iff_of_nonneg (mul_self_nonneg (g a))
        (sumSq_nonneg g l)).mp h
      intro t ht
      rcases List.mem_cons.mp ht with rfl | ht2
      · exact mul_self_eq_zero.mp hz.1
      · exact (sumSq_eq_zero_iff g l).mp hz.2 t ht2
    · intro h
      have ha : g a = 0 := h a (List.mem_cons_self a l)
      have hl : ((l.map (fun t => g t * g t)).sum = 0) :=
        (sumSq_eq_zero_iff g l).mpr (fun t ht => h t (List.mem_cons_of_mem a ht))
      rw [ha, hl]
      simp

/-- C8: with the default cosine similarity, the fitted similarity matrix is
symmetric: `S[i, j] = S[j, i]` for all subjects `i`, `j`. -/
theorem similaritySymmetric (α : Type) [LinearOrderedField α] (f : ℚ → α)
    (Y : List Rating) (i j : Nat) :
    cosineSim α f Y i j = cosineSim α f Y j i := by
  rw [cosineSim, cosineSim, gram_comm Y i j, mul_comm]

/-- C9: on the diagonal, the default cosine similarity is 1 for a subject
whose centered column vector is non-zero and 0 for an all-zero column, and
the normalizing denominator is never 0 (the zero-norm division is
special-cased, so no undefined value is ever produced). -/
theorem selfSimilarity (α : Type) [LinearOrderedField α] (f : ℚ → α)
    (hf : ∀ q : ℚ, 0 < q → f q * f q = (q : α)) (Y : List Rating) (s : Nat) :
    (cosineSim α f Y s s = if gram Y s s = 0 then 0 else 1) ∧
    (gram Y s s = 0 ↔ ∀ t ∈ List.range (nItems Y), Ybar Y t s = 0) ∧
    (∀ i j : Nat, normFactor α f Y i * normFactor α f Y j ≠ 0) := by
  have hnn : ∀ i : Nat, 0 ≤ gram Y i i := fun i => by
    rw [gram]
    exact sumSq_nonneg (fun t => Ybar Y t i) (List.range (nItems Y))
  have hnf : ∀ i : Nat, normFactor α f Y i ≠ 0 := by
    intro i
    rw [normFactor]
    by_cases hg : gram Y i i = 0
    · rw [if_pos hg]
      exact one_ne_zero
    · rw [if_neg hg]
      have hpos : 0 < gram Y i i := lt_of_le_of_ne (hnn i) (Ne.symm hg)
      intro h0
      have hsq := hf (gram Y i i) hpos
      rw [h0, zero_mul] at hsq
      have hcast : ((gram Y i i : ℚ) : α) ≠ 0 := by exact_mod_cast hg
      exact hcast hsq.symm
  refine ⟨?_, ?_, fun i j => mul_ne_zero (hnf i) (hnf j)⟩
  · by_cases hg : gram Y s s = 0
    · rw [if_pos hg, cosineSim, hg]
      simp
    · rw [if_neg hg, cosineSim, normFactor, if_neg hg]
      have hpos : 0 < gram Y s s := lt_of_le_of_ne (hnn s) (Ne.symm hg)
      rw [hf (gram Y s s) hpos]
      exact div_self (by exact_mod_cast hg)
  · rw [gram]
    exact sumSq_eq_zero_iff (fun t => Ybar Y t s) (List.range (nItems Y))

/-- C9 witness: `Real.sqrt` satisfies the square-root law assumed of `f`,
and the theorem applies at the literal scenario with subject 0. -/
theorem selfSimilarityWitness :
    (∀ q : ℚ, 0 < q → Real.sqrt (q : ℝ) * Real.sqrt (q : ℝ) = (q : ℝ)) ∧
      ((cosineSim ℝ (fun q => Real.sqrt (q : ℝ)) demoY 0 0 =
          if gram demoY 0 0 = 0 then 0 else 1) ∧
        (gram demoY 0 0 = 0 ↔
          ∀ t ∈ List.range (nItems demoY), Ybar demoY t 0 = 0) ∧
        (∀ i j : Nat,
          normFactor ℝ (fun q => Real.sqrt (q : ℝ)) demoY i *
              normFactor ℝ (fun q => Real.sqrt (q : ℝ)) demoY j ≠ 0)) := by
  have hf : ∀ q : ℚ, 0 < q →
      Real.sqrt (q : ℝ) * Real.sqrt (q : ℝ) = (q : ℝ) :=
    fun q hq => Real.mul_self_sqrt (by exact_mod_cast hq.le)
  exact ⟨hf, selfSimilarity ℝ (fun q => Real.sqrt (q : ℝ)) hf demoY 0⟩
